import Mathlib

/-!
Shallow embedding of the dirdiff snapshot-diff engine.

Sources: src/main.rs (the wired `compare_local` pipeline over an in-memory
SQLite table), src/db.rs (the modular variants of the same queries, including
`moved_files`/`missing_files`/`added_files` over the `working_entries` and
`touched_entries` tables), src/dir_csv.rs (CSV loading), src/docs.rs (`Doc`
and `MovedDoc`).

Rows of the SQLite tables `dir_entries` / `working_entries` / `touched_entries`
are modelled as `Row` (INTEGER PRIMARY KEY id, hash, name, path, mod_date).
`mod_date` is stored by `load_to_local_sqlite` as whole seconds
(`duration_since(UNIX_EPOCH).as_secs()`), a non-negative integer, so it is a
`Nat` here.  SQL `DELETE ... WHERE id IN (SELECT ...)` is modelled by first
materialising the id list of the subquery against the current table value and
then filtering; consecutive statements see the table left by the previous one,
exactly as the sequential `conn.execute` calls do.  A self join
`working_entries w1 INNER JOIN working_entries w2` is the filtered cartesian
square `joinPairs`.
-/

/-- A row of the `dir_entries` / `working_entries` / `touched_entries` tables. -/
structure Row where
  id : Nat
  hash : String
  name : String
  path : String
  mod_date : Nat
deriving DecidableEq

/-- The `Doc` record of src/docs.rs; `mod_date` keeps the raw integer the code
reads from column 4 (the code wraps it as `UNIX_EPOCH + from_millis(..)`). -/
structure Doc where
  hash : String
  name : String
  path : String
  mod_date : Nat
deriving DecidableEq

/-- The `MovedDoc` record of src/docs.rs: a base `Doc` plus `dest_path`. -/
structure MovedDoc where
  doc : Doc
  dest_path : String
deriving DecidableEq

/-- Projection used by every query that reads hash/name/path/mod_date of a row. -/
def docOfRow (r : Row) : Doc :=
  ⟨r.hash, r.name, r.path, r.mod_date⟩

/-- `working_entries w1 INNER JOIN working_entries w2` without an ON filter:
all ordered pairs, outer loop on `w1`, inner loop on `w2`. -/
def joinPairs (l : List Row) : List (Row × Row) :=
  l.flatMap (fun w1 => l.map (fun w2 => (w1, w2)))

/-- ON-condition of the unchanged join:
`w1.mod_date != w2.mod_date AND w1.hash = w2.hash AND w1.name = w2.name AND w1.path = w2.path`. -/
abbrev unchangedPred (w1 w2 : Row) : Prop :=
  w1.mod_date ≠ w2.mod_date ∧ w1.hash = w2.hash ∧ w1.name = w2.name ∧ w1.path = w2.path

/-- ON-condition of the renamed join:
`w1.mod_date != w2.mod_date AND w1.hash = w2.hash AND w1.name != w2.name AND w1.path = w2.path`. -/
abbrev renamedPred (w1 w2 : Row) : Prop :=
  w1.mod_date ≠ w2.mod_date ∧ w1.hash = w2.hash ∧ w1.name ≠ w2.name ∧ w1.path = w2.path

/-- ON-condition of the moved join:
`w1.mod_date != w2.mod_date AND w1.hash = w2.hash AND w1.path != w2.path AND w1.name = w2.name`. -/
abbrev movedPred (w1 w2 : Row) : Prop :=
  w1.mod_date ≠ w2.mod_date ∧ w1.hash = w2.hash ∧ w1.path ≠ w2.path ∧ w1.name = w2.name

/-- `load_working_table` (src/main.rs:274, src/db.rs:157): copies from
`dir_entries` the rows `WHERE mod_date IN (?1, ?2)` with `?1 = latest`,
`?2 = previous`. -/
def loadWorkingTable (latest previous : Nat) (dirEntries : List Row) : List Row :=
  dirEntries.filter (fun r => decide (r.mod_date = latest ∨ r.mod_date = previous))

/-- Result set of the unchanged join restricted by
`WHERE w1.mod_date = ?1` (with `?1 = previous`), reused by the SELECT and the
DELETE of the unchanged phase. -/
def unchangedPairs (previous : Nat) (ws : List Row) : List (Row × Row) :=
  (joinPairs ws).filter
    (fun p => decide (unchangedPred p.1 p.2 ∧ p.1.mod_date = previous))

/-- `remove_unchanged_from_working_table` (src/main.rs:283): deletes the rows
whose id appears as `w1.id` in an unchanged pair with `w1.mod_date = previous`
(so only the previous-snapshot side of each unchanged pair is deleted). -/
def removeUnchangedFromWorkingTable (previous : Nat) (ws : List Row) : List Row :=
  ws.filter (fun r => decide (r.id ∉ (unchangedPairs previous ws).map (fun p => p.1.id)))

/-- Result set of the renamed join restricted by
`WHERE w1.mod_date = ?1 AND w2.mod_date = ?2` (`?1 = latest`,
`?2 = previous`), reused by the SELECT and the two DELETEs of the renamed
phase. -/
def renamedPairs (latest previous : Nat) (ws : List Row) : List (Row × Row) :=
  (joinPairs ws).filter
    (fun p => decide (renamedPred p.1 p.2 ∧
      p.1.mod_date = latest ∧ p.2.mod_date = previous))

/-- `renamed_files` (src/main.rs:234, src/db.rs:109): `SELECT *` over the
renamed join with `w1.mod_date = latest`, `w2.mod_date = previous`; the row
mapper reads columns 1..4, i.e. the `w1` (latest) side only. -/
def renamedFiles (latest previous : Nat) (ws : List Row) : List Doc :=
  (renamedPairs latest previous ws).map (fun p => docOfRow p.1)

/-- The first DELETE of `remove_renamed` (src/main.rs:257): removes the
`w1.id` (latest) side of each renamed pair. -/
def removeRenamedFirst (latest previous : Nat) (ws : List Row) : List Row :=
  ws.filter (fun r => decide (r.id ∉ (renamedPairs latest previous ws).map (fun p => p.1.id)))

/-- `remove_renamed` (src/main.rs:255; the two DELETE statements of
src/db.rs:129 behave the same): the first DELETE removes the `w1.id` (latest)
side of each renamed pair; the second DELETE then removes the `w2.id`
(previous) side of the renamed pairs of the table AS LEFT BY THE FIRST
DELETE (the two statements run sequentially). -/
def removeRenamed (latest previous : Nat) (ws : List Row) : List Row :=
  (removeRenamedFirst latest previous ws).filter
    (fun r => decide (r.id ∉
      (renamedPairs latest previous (removeRenamedFirst latest previous ws)).map
        (fun p => p.2.id)))

/-- Result set of the moved join restricted by
`WHERE w1.mod_date = ?1 AND w2.mod_date = ?2`, reused by the SELECT, the
DELETE and (with swapped parameters) the touched INSERT of the moved phase. -/
def movedPairs (latest previous : Nat) (ws : List Row) : List (Row × Row) :=
  (joinPairs ws).filter
    (fun p => decide (movedPred p.1 p.2 ∧
      p.1.mod_date = latest ∧ p.2.mod_date = previous))

/-- `moved_files` (src/main.rs:202): `SELECT *` over the moved join with
`w1.mod_date = latest`, `w2.mod_date = previous`; the row mapper reads
columns 1..4, i.e. the `w1` (latest) side only. -/
def movedFiles (latest previous : Nat) (ws : List Row) : List Doc :=
  (movedPairs latest previous ws).map (fun p => docOfRow p.1)

/-- `moved_files` (src/db.rs:68): same join, but projects
`w1.hash, w1.name, w1.path, w1.mod_date, w2.path`, building
`MovedDoc { doc: (w1 fields), dest_path: w2.path }` with `w1` the latest side
and `w2` the previous side. -/
def movedFilesDb (latest previous : Nat) (ws : List Row) : List MovedDoc :=
  (movedPairs latest previous ws).map (fun p => ⟨docOfRow p.1, p.2.path⟩)

/-- `remove_moved` (src/main.rs:223; the DELETE of src/db.rs:90 is identical):
deletes the `w1.id` (latest) side of each moved pair. -/
def removeMoved (latest previous : Nat) (ws : List Row) : List Row :=
  ws.filter (fun r => decide (r.id ∉ (movedPairs latest previous ws).map (fun p => p.1.id)))

/-- `remove_moved` (src/db.rs:90): the DELETE above, followed by an INSERT into
`touched_entries` of the `w1` side of the moved pairs with
`w1.mod_date = ?1 = previous`, `w2.mod_date = ?2 = latest` — evaluated against
the working table AFTER the delete has run. -/
def removeMovedDb (latest previous : Nat) (ws touched : List Row) :
    List Row × List Row :=
  let ws' := removeMoved latest previous ws
  (ws', touched ++ (movedPairs previous latest ws').map (fun p => p.1))

/-- The `mod_date` column is populated by every INSERT the program executes,
so the SQL predicate `w1.mod_date IS NULL` (src/db.rs:32) never holds. -/
def modDateIsNull (_ : Row) : Bool :=
  false

/-- The right operand of the EXCEPT in `missing_files` (src/db.rs:27):
`SELECT w1.* FROM working_entries w1 LEFT JOIN working_entries w2 ON
(unchanged join) WHERE w1.mod_date IS NULL AND w2.id = ?1` with
`?1 = previous`.  Unmatched LEFT JOIN rows have a NULL `w2.id`, so the
`w2.id = ?1` comparison already drops them; the matched rows are the inner
join. -/
def missingExcluded (previous : Nat) (working : List Row) : List Row :=
  ((joinPairs working).filter
      (fun p => decide (unchangedPred p.1 p.2) && modDateIsNull p.1 &&
        decide (p.2.id = previous))).map
    (fun p => p.1)

/-- `missing_files` (src/db.rs:25): `SELECT * FROM touched_entries EXCEPT ...`.
SQL EXCEPT returns the distinct rows of the left operand that do not occur in
the right operand (output order unspecified; the left operand's order is kept
here). -/
def missingFiles (previous : Nat) (touched working : List Row) : List Doc :=
  (touched.dedup.filter
      (fun t => decide (t ∉ missingExcluded previous working))).map docOfRow

/-- `missing_files` (src/main.rs:187): a stub that returns an empty vector. -/
def missingFilesMain (_latest _previous : Nat) : List Doc :=
  []

/-- `added_files` (src/db.rs:48): working-side rows with
`mod_date = latest` having no `touched_entries` partner under the unchanged
join (`w2.mod_date IS NULL` keeps exactly the unmatched LEFT JOIN rows). -/
def addedFiles (latest : Nat) (working touched : List Row) : List Doc :=
  (working.filter
      (fun w1 => decide (w1.mod_date = latest ∧
        ∀ w2 ∈ touched, ¬ unchangedPred w1 w2))).map docOfRow

/-- Insertion of one value into a descending-sorted list of revision values. -/
def insertDesc (x : Nat) : List Nat → List Nat
  | [] => [x]
  | y :: ys => if y < x then x :: y :: ys else y :: insertDesc x ys

/-- Descending sort, modelling SQL `ORDER BY mod_date DESC`. -/
def sortDesc : List Nat → List Nat
  | [] => []
  | x :: xs => insertDesc x (sortDesc xs)

/-- `revision_millis` (src/main.rs:158, src/db.rs:208):
`SELECT DISTINCT mod_date FROM dir_entries ORDER BY mod_date DESC`. -/
def revisionMillis (entries : List Row) : List Nat :=
  sortDesc ((entries.map Row.mod_date).dedup)

/-- The result assembled by `compare_local` (src/main.rs:317): the printed
renamed and moved lists, plus the final contents of `working_entries`.
`compare_local` produces no added or missing output. -/
structure CompareResult where
  renamed : List Doc
  moved : List Doc
  working : List Row
deriving DecidableEq

/-- Outcome of running `compare_local`: either a result, or a Rust panic
(`revisions[0]` / `revisions[1]` index out of bounds), which terminates the
process — there is no error value returned to a caller. -/
inductive CompareOutcome where
  | ok (res : CompareResult)
  | panicIndexOutOfBounds
deriving DecidableEq

/-- The phase sequence of `compare_local` (src/main.rs:326-352) for a chosen
latest/previous pair: load the working table, delete unchanged, list renamed
then delete renamed, list moved then delete moved. -/
def compareWith (latest previous : Nat) (dirEntries : List Row) : CompareResult :=
  let ws := loadWorkingTable latest previous dirEntries
  let ws1 := removeUnchangedFromWorkingTable previous ws
  let renamed := renamedFiles latest previous ws1
  let ws2 := removeRenamed latest previous ws1
  let moved := movedFiles latest previous ws2
  let ws3 := removeMoved latest previous ws2
  ⟨renamed, moved, ws3⟩

/-- `compare_local` (src/main.rs:317): takes `revisions[0]` as latest and
`revisions[1]` as previous (panicking when fewer than two distinct revisions
exist), then runs the phases. -/
def compareLocal (dirEntries : List Row) : CompareOutcome :=
  match revisionMillis dirEntries with
  | l :: p :: _ => .ok (compareWith l p dirEntries)
  | _ => .panicIndexOutOfBounds

/-- A record as persisted in the `.dirdiff.csv` line format
`hash,name,path,mod_date_millis` (src/docs.rs `Doc` under `serde_millis`):
the timestamp is kept at millisecond precision. -/
structure CsvDoc where
  hash : String
  name : String
  path : String
  mod_date_millis : Nat
deriving DecidableEq

/-- `load_to_local_sqlite` (src/main.rs:135, src/db.rs:194): each entry is
inserted with `mod_date = duration_since(UNIX_EPOCH).as_secs()`, i.e. the
millisecond timestamp truncated to whole seconds; ids are the successive
INTEGER PRIMARY KEY rowids. -/
def loadToLocalSqlite (entries : List CsvDoc) : List Row :=
  entries.enum.map
    (fun p => ⟨p.1 + 1, p.2.hash, p.2.name, p.2.path, p.2.mod_date_millis / 1000⟩)

/-- Outcome of `load_csv_latest_entries`: a list of records, or a Rust panic
carrying the `expect` message (process termination, not a returned error). -/
inductive CsvLoadOutcome where
  | ok (docs : List CsvDoc)
  | panicWith (msg : String)
deriving DecidableEq

/-- `load_csv_latest_entries` (src/dir_csv.rs:113): sorts all record
timestamps and takes the last (the maximum; here the head of the descending
sort), panicking with "Could not get last revision date" when there are no
records; then re-reads the file and keeps, in file order, exactly the records
whose timestamp equals that maximum. -/
def loadCsvLatestEntries (records : List CsvDoc) : CsvLoadOutcome :=
  match sortDesc (records.map CsvDoc.mod_date_millis) with
  | [] => .panicWith "Could not get last revision date"
  | latest :: _ =>
      .ok (records.filter (fun r => decide (r.mod_date_millis = latest)))

theorem mem_joinPairs {l : List Row} {p : Row × Row} :
    p ∈ joinPairs l ↔ p.1 ∈ l ∧ p.2 ∈ l := by
  obtain ⟨x, y⟩ := p
  simp only [joinPairs, List.mem_flatMap, List.mem_map, Prod.mk.injEq]
  constructor
  · rintro ⟨a, ha, b, hb, rfl, rfl⟩
    exact ⟨ha, hb⟩
  · rintro ⟨hx, hy⟩
    exact ⟨x, hx, y, hy, rfl, rfl⟩

theorem insertDesc_perm (x : Nat) (l : List Nat) :
    List.Perm (insertDesc x l) (x :: l) := by
  induction l with
  | nil => rfl
  | cons y ys ih =>
    simp only [insertDesc]
    split
    · rfl
    · exact (ih.cons y).trans (List.Perm.swap x y ys)

theorem sortDesc_perm (l : List Nat) : List.Perm (sortDesc l) l := by
  induction l with
  | nil => rfl
  | cons x xs ih => exact (insertDesc_perm x (sortDesc xs)).trans (ih.cons x)

theorem sorted_insertDesc {x : Nat} {l : List Nat} (h : l.Sorted (· ≥ ·)) :
    (insertDesc x l).Sorted (· ≥ ·) := by
  induction l with
  | nil => simp [insertDesc]
  | cons y ys ih =>
    simp only [insertDesc]
    split
    · rename_i hyx
      refine List.pairwise_cons.2 ⟨?_, h⟩
      intro b hb
      rcases List.mem_cons.1 hb with rfl | hb
      · exact le_of_lt hyx
      · exact le_trans ((List.pairwise_cons.1 h).1 b hb) (le_of_lt hyx)
    · rename_i hyx
      have hys : ys.Sorted (· ≥ ·) := (List.pairwise_cons.1 h).2
      refine List.pairwise_cons.2 ⟨?_, ih hys⟩
      intro b hb
      have hb' : b ∈ x :: ys := (insertDesc_perm x ys).mem_iff.1 hb
      rcases List.mem_cons.1 hb' with rfl | hb'
      · exact le_of_not_lt hyx
      · exact (List.pairwise_cons.1 h).1 b hb'

theorem sortDesc_sorted (l : List Nat) : (sortDesc l).Sorted (· ≥ ·) := by
  induction l with
  | nil => simp [sortDesc]
  | cons x xs ih => exact sorted_insertDesc ih

theorem revisionMillis_sorted (es : List Row) :
    (revisionMillis es).Sorted (· ≥ ·) :=
  sortDesc_sorted _

theorem revisionMillis_nodup (es : List Row) : (revisionMillis es).Nodup :=
  (sortDesc_perm _).nodup_iff.2 (List.nodup_dedup _)

theorem revisionMillis_mem (es : List Row) (x : Nat) :
    x ∈ revisionMillis es ↔ ∃ r ∈ es, r.mod_date = x := by
  rw [revisionMillis, (sortDesc_perm _).mem_iff, List.mem_dedup, List.mem_map]

theorem compareLocal_cons {es : List Row} {l p : Nat} {rest : List Nat}
    (h : revisionMillis es = l :: p :: rest) :
    compareLocal es = .ok (compareWith l p es) := by
  unfold compareLocal
  rw [h]

theorem compareLocal_short {es : List Row}
    (h : (revisionMillis es).length < 2) :
    compareLocal es = .panicIndexOutOfBounds := by
  unfold compareLocal
  rcases hrev : revisionMillis es with _ | ⟨a, _ | ⟨b, t⟩⟩
  · rfl
  · rfl
  · rw [hrev] at h
    simp only [List.length_cons] at h
    omega

theorem sortedDescTwo {l : List Nat} {a b : Nat} (hs : l.Sorted (· ≥ ·))
    (hn : l.Nodup) (hmem : ∀ x, x ∈ l ↔ x = a ∨ x = b) (hba : b < a) :
    l = [a, b] := by
  match l with
  | [] =>
    exact absurd ((hmem a).2 (Or.inl rfl)) (List.not_mem_nil a)
  | [x] =>
    have ha : a = x := List.mem_singleton.1 ((hmem a).2 (Or.inl rfl))
    have hb : b = x := List.mem_singleton.1 ((hmem b).2 (Or.inr rfl))
    exact absurd (hb.trans ha.symm) (Nat.ne_of_lt hba)
  | x :: y :: t =>
    have hxa : x = a := by
      rcases (hmem x).1 (List.mem_cons_self _ _) with hx | hx
      · exact hx
      · exfalso
        have ha : a ∈ x :: y :: t := (hmem a).2 (Or.inl rfl)
        rcases List.mem_cons.1 ha with h1 | h1
        · exact Nat.ne_of_lt hba (hx ▸ h1.symm)
        · have : x ≥ a := (List.pairwise_cons.1 hs).1 a h1
          exact absurd (lt_of_le_of_lt (hx ▸ this) hba) (lt_irrefl _)
    subst hxa
    have hyb : y = b := by
      rcases (hmem y).1 (List.mem_cons_of_mem _ (List.mem_cons_self _ _)) with hy | hy
      · exfalso
        exact (List.nodup_cons.1 hn).1 (hy ▸ List.mem_cons_self _ _)
      · exact hy
    subst hyb
    have ht : t = [] := by
      by_contra hne
      obtain ⟨z, hz⟩ := List.exists_mem_of_ne_nil t hne
      have hzx : z ≠ x := by
        intro h
        exact (List.nodup_cons.1 hn).1 (h ▸ List.mem_cons_of_mem _ hz)
      have hzy : z ≠ y := by
        intro h
        exact (List.nodup_cons.1 (List.nodup_cons.1 hn).2).1 (h ▸ hz)
      rcases (hmem z).1 (List.mem_cons_of_mem _ (List.mem_cons_of_mem _ hz)) with
        h1 | h1
      · exact hzx h1
      · exact hzy h1
    rw [ht]

theorem rowId_inj {ws : List Row} (hids : (ws.map Row.id).Nodup) {x y : Row}
    (hx : x ∈ ws) (hy : y ∈ ws) (hxy : x.id = y.id) : x = y :=
  List.inj_on_of_nodup_map hids hx hy hxy

theorem sortDesc_dedup_pair_length (a b : Nat) :
    (sortDesc ([a, b].dedup)).length = 2 ↔ a ≠ b := by
  rw [(sortDesc_perm _).length_eq]
  by_cases hab : a = b
  · subst hab
    rw [List.dedup_cons_of_mem (List.mem_singleton.2 rfl),
      List.dedup_cons_of_not_mem (List.not_mem_nil a), List.dedup_nil]
    simp
  · rw [List.dedup_cons_of_not_mem (by simp [hab]),
      List.dedup_cons_of_not_mem (List.not_mem_nil b), List.dedup_nil]
    simp [hab]

/-- C7: `revision_millis` returns the distinct `mod_date` values of the store
sorted descending (`SELECT DISTINCT mod_date ... ORDER BY mod_date DESC`), and
`compare_local` runs the phases with latest = element 0 and previous =
element 1 of that list. -/
theorem revisionMillis_selection :
    (∀ es : List Row,
      (revisionMillis es).Sorted (· ≥ ·) ∧ (revisionMillis es).Nodup ∧
      (∀ x, x ∈ revisionMillis es ↔ ∃ r ∈ es, r.mod_date = x)) ∧
    (∀ (es : List Row) (l p : Nat) (rest : List Nat),
      revisionMillis es = l :: p :: rest →
      compareLocal es = CompareOutcome.ok (compareWith l p es)) := by
  refine ⟨fun es => ⟨revisionMillis_sorted es, revisionMillis_nodup es,
    revisionMillis_mem es⟩, ?_⟩
  intro es l p rest h
  exact compareLocal_cons h

/-- Witness for C7 at a concrete two-revision store. -/
theorem revisionMillis_selection_witness :
    compareLocal [⟨1, "h", "a", "/d", 1⟩, ⟨2, "h2", "b", "/d", 2⟩] =
      CompareOutcome.ok (compareWith 2 1
        [⟨1, "h", "a", "/d", 1⟩, ⟨2, "h2", "b", "/d", 2⟩]) :=
  revisionMillis_selection.2 _ 2 1 [] (by decide)

/-- C8 counterexample: on a store with a single distinct snapshot id,
`compare_local` hits `revisions[1]` out of bounds and panics — the process
terminates; no typed failure value is returned to any caller (the function's
return type is `()`), contrary to the claim. -/
theorem compareLocal_single_revision_counterexample :
    compareLocal [⟨1, "h", "a", "/d", 5⟩] = CompareOutcome.panicIndexOutOfBounds := by
  decide

/-- C8 amended: with fewer than two distinct snapshot ids `compare_local`
panics (index out of bounds), which terminates the process instead of
returning a typed failure; it never defaults to comparing a snapshot against
itself — when two revisions are selected they are always distinct. -/
theorem compareLocal_too_few_revisions :
    (∀ es : List Row, (revisionMillis es).length < 2 →
      compareLocal es = CompareOutcome.panicIndexOutOfBounds) ∧
    (∀ (es : List Row) (l p : Nat) (rest : List Nat),
      revisionMillis es = l :: p :: rest → l ≠ p) := by
  constructor
  · intro es h
    exact compareLocal_short h
  · intro es l p rest h hlp
    have hn := revisionMillis_nodup es
    rw [h] at hn
    exact (List.nodup_cons.1 hn).1 (hlp ▸ List.mem_cons_self _ _)

/-- Witness for C8's amended theorem. -/
theorem compareLocal_too_few_revisions_witness :
    compareLocal [⟨1, "h", "a", "/d", 5⟩] = CompareOutcome.panicIndexOutOfBounds ∧
    (2 : Nat) ≠ 1 :=
  ⟨compareLocal_too_few_revisions.1 _ (by decide),
   compareLocal_too_few_revisions.2
     [⟨1, "h", "a", "/d", 1⟩, ⟨2, "h2", "b", "/d", 2⟩] 2 1 [] (by decide)⟩

/-- C1: on the store previous = {(ha,"a","/d")}, latest = {(hb,"b","/d")}
(one record should be Missing, the other Added), `compare_local` emits an
empty renamed list and an empty moved list, leaves both records in the
working table, and produces no added or missing output at all (the only
`missing_files` it could call, the src/main.rs stub, returns the empty list
and is in fact never called) — so neither record is assigned to any outcome
category, contradicting partition completeness. -/
theorem compareLocal_unclassified_records :
    compareLocal [⟨1, "ha", "a", "/d", 1⟩, ⟨2, "hb", "b", "/d", 2⟩] =
      CompareOutcome.ok ⟨[], [],
        [⟨1, "ha", "a", "/d", 1⟩, ⟨2, "hb", "b", "/d", 2⟩]⟩ ∧
    missingFilesMain 2 1 = [] := by
  decide

/-- C4 counterexample: on scenario B (previous {(h1,"a.txt","/d")}, latest
{(h1,"a2.txt","/d")}) the renamed query emits exactly one `Doc`, whose fields
are the latest side's hash, name and path; the old name "a.txt" appears in no
field of the emitted entry, so the entry does not carry both the old and the
new name. -/
theorem renamedFiles_no_old_name_counterexample :
    renamedFiles 2 1 [⟨1, "h1", "a.txt", "/d", 1⟩, ⟨2, "h1", "a2.txt", "/d", 2⟩] =
      [⟨"h1", "a2.txt", "/d", 2⟩] ∧
    ("h1" : String) ≠ "a.txt" ∧ ("a2.txt" : String) ≠ "a.txt" ∧
    ("/d" : String) ≠ "a.txt" := by
  decide

/-- C4 amended: for every pair (a from the previous snapshot, b from the
latest) with equal hash, equal path and different name, the renamed phase
emits one entry carrying only the latest record's fields — the shared hash,
the NEW name `b.name` and the shared path (the old name `a.name` is not part
of the output); on scenario B it emits exactly one entry with name
"a2.txt". -/
theorem renamedFiles_new_name_only :
    (∀ (latest previous : Nat) (ws : List Row) (d : Doc),
      d ∈ renamedFiles latest previous ws ↔
        ∃ b a, b ∈ ws ∧ a ∈ ws ∧ b.mod_date ≠ a.mod_date ∧ b.hash = a.hash ∧
          b.name ≠ a.name ∧ b.path = a.path ∧ b.mod_date = latest ∧
          a.mod_date = previous ∧ d = ⟨b.hash, b.name, b.path, b.mod_date⟩) ∧
    renamedFiles 2 1 [⟨1, "h1", "a.txt", "/d", 1⟩, ⟨2, "h1", "a2.txt", "/d", 2⟩] =
      [⟨"h1", "a2.txt", "/d", 2⟩] := by
  constructor
  · intro latest previous ws d
    simp only [renamedFiles, renamedPairs, List.mem_map, List.mem_filter,
      mem_joinPairs, decide_eq_true_eq, docOfRow]
    constructor
    · rintro ⟨⟨b, a⟩, ⟨⟨hb, ha⟩, ⟨hmod, hh, hn, hp⟩, hl, hpr⟩, rfl⟩
      exact ⟨b, a, hb, ha, hmod, hh, hn, hp, hl, hpr, rfl⟩
    · rintro ⟨b, a, hb, ha, hmod, hh, hn, hp, hl, hpr, rfl⟩
      exact ⟨(b, a), ⟨⟨hb, ha⟩, ⟨hmod, hh, hn, hp⟩, hl, hpr⟩, rfl⟩
  · decide

/-- C5 counterexample: on scenario C (previous {(h1,"a.txt","/d1")}, latest
{(h1,"a.txt","/d2")}) the db.rs moved query emits exactly one `MovedDoc`, and
its base record's path (the "from" position in the printed
`path -> dest_path`) is "/d2" — the LATEST path — while `dest_path` is
"/d1" — the PREVIOUS path: the old/new roles are the reverse of the claim. -/
theorem movedFilesDb_swapped_counterexample :
    movedFilesDb 2 1 [⟨1, "h1", "a.txt", "/d1", 1⟩, ⟨2, "h1", "a.txt", "/d2", 2⟩] =
      [⟨⟨"h1", "a.txt", "/d2", 2⟩, "/d1"⟩] ∧
    (MovedDoc.mk ⟨"h1", "a.txt", "/d2", 2⟩ "/d1").doc.path ≠ "/d1" ∧
    (MovedDoc.mk ⟨"h1", "a.txt", "/d2", 2⟩ "/d1").dest_path ≠ "/d2" := by
  decide

/-- C5 amended: for every pair (a previous, b latest) with equal hash, equal
name and different path, the moved phase emits one entry whose base `Doc`
carries the latest record b (so its `path` field is the new path `b.path`)
and whose `dest_path` field is the previous path `a.path`; on scenario C it
emits exactly one entry with `doc.path` = "/d2" and `dest_path` = "/d1". -/
theorem movedFilesDb_latest_doc_prev_dest :
    (∀ (latest previous : Nat) (ws : List Row) (e : MovedDoc),
      e ∈ movedFilesDb latest previous ws ↔
        ∃ b a, b ∈ ws ∧ a ∈ ws ∧ b.mod_date ≠ a.mod_date ∧ b.hash = a.hash ∧
          b.path ≠ a.path ∧ b.name = a.name ∧ b.mod_date = latest ∧
          a.mod_date = previous ∧
          e = ⟨⟨b.hash, b.name, b.path, b.mod_date⟩, a.path⟩) ∧
    movedFilesDb 2 1 [⟨1, "h1", "a.txt", "/d1", 1⟩, ⟨2, "h1", "a.txt", "/d2", 2⟩] =
      [⟨⟨"h1", "a.txt", "/d2", 2⟩, "/d1"⟩] := by
  constructor
  · intro latest previous ws e
    simp only [movedFilesDb, movedPairs, List.mem_map, List.mem_filter,
      mem_joinPairs, decide_eq_true_eq, docOfRow]
    constructor
    · rintro ⟨⟨b, a⟩, ⟨⟨hb, ha⟩, ⟨hmod, hh, hp, hn⟩, hl, hpr⟩, rfl⟩
      exact ⟨b, a, hb, ha, hmod, hh, hp, hn, hl, hpr, rfl⟩
    · rintro ⟨b, a, hb, ha, hmod, hh, hp, hn, hl, hpr, rfl⟩
      exact ⟨(b, a), ⟨⟨hb, ha⟩, ⟨hmod, hh, hp, hn⟩, hl, hpr⟩, rfl⟩
  · decide

/-- C6: the db.rs missing query returns exactly the contents of
`touched_entries` (its WHERE clause `w1.mod_date IS NULL` can never hold, so
the subtracted set is empty) — i.e. exactly the previous-snapshot records
that WERE consumed by the earlier phases, the complement of the claim.  On a
store where the previous record (ha,"a","/d") matches nothing (so it was
consumed by no phase and should be Missing) and nothing was consumed
(`touched_entries` empty), it returns the empty list; and a consumed record
placed in `touched_entries` IS returned. -/
theorem missingFiles_returns_consumed :
    missingFiles 1 [] [⟨1, "ha", "a", "/d", 1⟩, ⟨2, "hb", "b", "/e", 2⟩] = [] ∧
    missingFiles 1 [⟨3, "hc", "c", "/d", 1⟩]
      [⟨1, "ha", "a", "/d", 1⟩, ⟨2, "hb", "b", "/e", 2⟩] =
      [⟨"hc", "c", "/d", 1⟩] := by
  decide

/-- C9 counterexample: two records persisted with distinct millisecond
timestamps 1000 and 1999 are loaded by `load_to_local_sqlite` with
`as_secs()`, both becoming `mod_date = 1`; after loading, the store has a
single distinct snapshot id — the two snapshots are indistinguishable. -/
theorem loadToLocalSqlite_collapse_counterexample :
    (1000 : Nat) ≠ 1999 ∧
    revisionMillis (loadToLocalSqlite
      [⟨"h", "a", "/d", 1000⟩, ⟨"h2", "b", "/d", 1999⟩]) = [1] := by
  decide

/-- C9 amended: records are persisted with millisecond timestamps, but
`load_to_local_sqlite` truncates them to whole seconds (`as_secs`), so two
persisted records produce two distinct snapshot ids in the comparison store
iff their timestamps differ after division by 1000. -/
theorem loadToLocalSqlite_truncates_to_seconds :
    ∀ (ha na pa : String) (m1 : Nat) (hb nb pb : String) (m2 : Nat),
      (revisionMillis (loadToLocalSqlite
        [⟨ha, na, pa, m1⟩, ⟨hb, nb, pb, m2⟩])).length = 2 ↔
        m1 / 1000 ≠ m2 / 1000 := by
  intro ha na pa m1 hb nb pb m2
  exact sortDesc_dedup_pair_length (m1 / 1000) (m2 / 1000)

/-- C10: `load_csv_latest_entries` panics with "Could not get last revision
date" on an empty record list; on a non-empty list it selects the maximum
timestamp (the head of the descending sort of all record timestamps — the
code sorts ascending and takes the last element) and returns, in file order,
exactly the records whose timestamp equals that maximum. -/
theorem loadCsvLatestEntries_behavior :
    (loadCsvLatestEntries [] =
      CsvLoadOutcome.panicWith "Could not get last revision date") ∧
    (∀ records : List CsvDoc, records ≠ [] →
      sortDesc (records.map CsvDoc.mod_date_millis) ≠ []) ∧
    (∀ (records : List CsvDoc) (mx : Nat) (rest : List Nat),
      sortDesc (records.map CsvDoc.mod_date_millis) = mx :: rest →
      (∀ r ∈ records, r.mod_date_millis ≤ mx) ∧
      (∃ r ∈ records, r.mod_date_millis = mx) ∧
      loadCsvLatestEntries records =
        CsvLoadOutcome.ok
          (records.filter (fun r => decide (r.mod_date_millis = mx)))) := by
  refine ⟨rfl, ?_, ?_⟩
  · intro records hne hc
    have hlen : (records.map CsvDoc.mod_date_millis).length = 0 := by
      rw [← (sortDesc_perm _).length_eq, hc]
      rfl
    exact hne (List.map_eq_nil_iff.1 (List.length_eq_zero.1 hlen))
  · intro records mx rest h
    have hsorted := sortDesc_sorted (records.map CsvDoc.mod_date_millis)
    rw [h] at hsorted
    have hperm := sortDesc_perm (records.map CsvDoc.mod_date_millis)
    rw [h] at hperm
    refine ⟨?_, ?_, ?_⟩
    · intro r hr
      have hmem : r.mod_date_millis ∈ mx :: rest :=
        hperm.symm.subset (List.mem_map_of_mem _ hr)
      rcases List.mem_cons.1 hmem with h1 | h1
      · exact le_of_eq h1
      · exact (List.pairwise_cons.1 hsorted).1 _ h1
    · have hmem : mx ∈ records.map CsvDoc.mod_date_millis :=
        hperm.subset (List.mem_cons_self _ _)
      rcases List.mem_map.1 hmem with ⟨r, hr, hrx⟩
      exact ⟨r, hr, hrx⟩
    · unfold loadCsvLatestEntries
      rw [h]

/-- Witness for C10 at a concrete two-record CSV. -/
theorem loadCsvLatestEntries_behavior_witness :
    loadCsvLatestEntries [⟨"h", "a", "/d", 5⟩, ⟨"h2", "b", "/d", 9⟩] =
      CsvLoadOutcome.ok [⟨"h2", "b", "/d", 9⟩] := by
  have h := loadCsvLatestEntries_behavior.2.2
    [⟨"h", "a", "/d", 5⟩, ⟨"h2", "b", "/d", 9⟩] 9 [5] (by decide)
  exact h.2.2.trans (by decide)

theorem mem_unchangedPairs {previous : Nat} {ws : List Row} {p : Row × Row} :
    p ∈ unchangedPairs previous ws ↔
      p.1 ∈ ws ∧ p.2 ∈ ws ∧ unchangedPred p.1 p.2 ∧ p.1.mod_date = previous := by
  simp [unchangedPairs, List.mem_filter, mem_joinPairs, and_assoc]

theorem mem_renamedPairs {latest previous : Nat} {ws : List Row} {p : Row × Row} :
    p ∈ renamedPairs latest previous ws ↔
      p.1 ∈ ws ∧ p.2 ∈ ws ∧ renamedPred p.1 p.2 ∧
        p.1.mod_date = latest ∧ p.2.mod_date = previous := by
  simp [renamedPairs, List.mem_filter, mem_joinPairs, and_assoc]

theorem mem_movedPairs {latest previous : Nat} {ws : List Row} {p : Row × Row} :
    p ∈ movedPairs latest previous ws ↔
      p.1 ∈ ws ∧ p.2 ∈ ws ∧ movedPred p.1 p.2 ∧
        p.1.mod_date = latest ∧ p.2.mod_date = previous := by
  simp [movedPairs, List.mem_filter, mem_joinPairs, and_assoc]

theorem removeRenamed_eq_first (latest previous : Nat) (ws : List Row) :
    removeRenamed latest previous ws = removeRenamedFirst latest previous ws := by
  rw [removeRenamed]
  apply List.filter_eq_self.2
  intro r hr
  simp only [decide_eq_true_eq]
  intro hrid
  rcases List.mem_map.1 hrid with ⟨q, hq, _⟩
  rcases mem_renamedPairs.1 hq with ⟨hq1, hq2, hpred, hql, hqp⟩
  have hq1ws : q.1 ∈ ws := List.mem_of_mem_filter hq1
  have hq2ws : q.2 ∈ ws := List.mem_of_mem_filter hq2
  have hnot : q.1.id ∉ (renamedPairs latest previous ws).map (fun p => p.1.id) := by
    have h := (List.mem_filter.1 hq1).2
    simpa using h
  exact hnot (List.mem_map.2
    ⟨q, mem_renamedPairs.2 ⟨hq1ws, hq2ws, hpred, hql, hqp⟩, rfl⟩)

/-- C2 counterexample: on a store containing one unchanged pair (ids 1/4),
one renamed pair (ids 2/5) and one moved pair (ids 3/6), `compare_local`
finishes with rows 2, 3 and 4 still in the working table: the previous-side
member of the renamed pair (id 2), the previous-side member of the moved pair
(id 3) and the latest-side member of the unchanged pair (id 4) were never
removed, so it is false that both records of each matched pair are removed
from the WorkingSet. -/
theorem compareLocal_leaves_pair_members_counterexample :
    compareLocal
      [⟨1, "h1", "u", "/d", 1⟩, ⟨2, "h2", "r1", "/d", 1⟩, ⟨3, "h3", "m", "/d1", 1⟩,
       ⟨4, "h1", "u", "/d", 2⟩, ⟨5, "h2", "r2", "/d", 2⟩, ⟨6, "h3", "m", "/d2", 2⟩] =
      CompareOutcome.ok ⟨[⟨"h2", "r2", "/d", 2⟩], [⟨"h3", "m", "/d2", 2⟩],
        [⟨2, "h2", "r1", "/d", 1⟩, ⟨3, "h3", "m", "/d1", 1⟩, ⟨4, "h1", "u", "/d", 2⟩]⟩ := by
  decide

/-- C2 amended: each phase removes only one side of each matched pair.  The
unchanged phase removes the previous-snapshot record and keeps the latest
one; the renamed phase removes the latest-snapshot record and keeps the
previous one (its second DELETE, aimed at the previous side, runs after its
join partners were already deleted and removes nothing — `removeRenamed`
equals its first DELETE); the moved phase removes the latest-snapshot record
and keeps the previous one, in the db.rs variant as well (whose DELETE is the
same query). -/
theorem remove_phase_single_sided :
    (∀ (ws : List Row) (previous : Nat) (a b : Row),
      (ws.map Row.id).Nodup → a ∈ ws → b ∈ ws →
      a.mod_date = previous → b.mod_date ≠ previous →
      a.hash = b.hash → a.name = b.name → a.path = b.path →
      a ∉ removeUnchangedFromWorkingTable previous ws ∧
      b ∈ removeUnchangedFromWorkingTable previous ws) ∧
    (∀ (ws : List Row) (latest previous : Nat) (a b : Row),
      (ws.map Row.id).Nodup → a ∈ ws → b ∈ ws →
      a.mod_date = previous → b.mod_date = latest → previous ≠ latest →
      b.hash = a.hash → b.name ≠ a.name → b.path = a.path →
      b ∉ removeRenamed latest previous ws ∧
      a ∈ removeRenamed latest previous ws) ∧
    (∀ (ws : List Row) (latest previous : Nat) (a b : Row),
      (ws.map Row.id).Nodup → a ∈ ws → b ∈ ws →
      a.mod_date = previous → b.mod_date = latest → previous ≠ latest →
      b.hash = a.hash → b.name = a.name → b.path ≠ a.path →
      b ∉ removeMoved latest previous ws ∧
      a ∈ removeMoved latest previous ws) ∧
    (∀ (latest previous : Nat) (ws touched : List Row),
      (removeMovedDb latest previous ws touched).1 = removeMoved latest previous ws) := by
  refine ⟨?_, ?_, ?_, fun _ _ _ _ => rfl⟩
  · intro ws previous a b hids ha hb hamod hbmod hh hn hp
    constructor
    · intro hmem
      have hdec : a.id ∉ (unchangedPairs previous ws).map (fun p => p.1.id) := by
        have h := (List.mem_filter.1 hmem).2
        simpa using h
      apply hdec
      refine List.mem_map.2 ⟨(a, b), mem_unchangedPairs.2 ⟨ha, hb, ⟨?_, hh, hn, hp⟩, hamod⟩, rfl⟩
      intro he
      exact hbmod (he ▸ hamod)
    · refine List.mem_filter.2 ⟨hb, ?_⟩
      simp only [decide_eq_true_eq]
      intro hbid
      rcases List.mem_map.1 hbid with ⟨q, hq, hqid⟩
      rcases mem_unchangedPairs.1 hq with ⟨hq1, _, _, hq1mod⟩
      have heq : q.1 = b := rowId_inj hids hq1 hb hqid
      exact hbmod (heq ▸ hq1mod)
  · intro ws latest previous a b hids ha hb hamod hbmod hlp hh hn hp
    have hfirst := removeRenamed_eq_first latest previous ws
    have hbids : b.id ∈ (renamedPairs latest previous ws).map (fun p => p.1.id) := by
      refine List.mem_map.2 ⟨(b, a), mem_renamedPairs.2
        ⟨hb, ha, ⟨?_, hh, hn, hp⟩, hbmod, hamod⟩, rfl⟩
      rw [hbmod, hamod]
      exact fun he => hlp he.symm
    constructor
    · rw [hfirst]
      intro hmem
      have h := (List.mem_filter.1 hmem).2
      simp only [decide_eq_true_eq] at h
      exact h hbids
    · rw [hfirst]
      refine List.mem_filter.2 ⟨ha, ?_⟩
      simp only [decide_eq_true_eq]
      intro haid
      rcases List.mem_map.1 haid with ⟨q, hq, hqid⟩
      rcases mem_renamedPairs.1 hq with ⟨hq1, _, _, hq1mod, _⟩
      have heq : q.1 = a := rowId_inj hids hq1 ha hqid
      rw [heq] at hq1mod
      exact hlp (hamod.symm.trans hq1mod)
  · intro ws latest previous a b hids ha hb hamod hbmod hlp hh hn hp
    constructor
    · intro hmem
      have hdec : b.id ∉ (movedPairs latest previous ws).map (fun p => p.1.id) := by
        have h := (List.mem_filter.1 hmem).2
        simpa using h
      apply hdec
      refine List.mem_map.2 ⟨(b, a), mem_movedPairs.2
        ⟨hb, ha, ⟨?_, hh, hp, hn⟩, hbmod, hamod⟩, rfl⟩
      rw [hbmod, hamod]
      exact fun he => hlp he.symm
    · refine List.mem_filter.2 ⟨ha, ?_⟩
      simp only [decide_eq_true_eq]
      intro haid
      rcases List.mem_map.1 haid with ⟨q, hq, hqid⟩
      rcases mem_movedPairs.1 hq with ⟨hq1, _, _, hq1mod, _⟩
      have heq : q.1 = a := rowId_inj hids hq1 ha hqid
      rw [heq] at hq1mod
      exact hlp (hamod.symm.trans hq1mod)

/-- Witness for C2's amended theorem on concrete unchanged, renamed and moved
pairs. -/
theorem remove_phase_single_sided_witness :
    ((⟨1, "h1", "u", "/d", 1⟩ : Row) ∉ removeUnchangedFromWorkingTable 1
        [⟨1, "h1", "u", "/d", 1⟩, ⟨4, "h1", "u", "/d", 2⟩] ∧
      (⟨4, "h1", "u", "/d", 2⟩ : Row) ∈ removeUnchangedFromWorkingTable 1
        [⟨1, "h1", "u", "/d", 1⟩, ⟨4, "h1", "u", "/d", 2⟩]) ∧
    ((⟨5, "h2", "r2", "/d", 2⟩ : Row) ∉ removeRenamed 2 1
        [⟨2, "h2", "r1", "/d", 1⟩, ⟨5, "h2", "r2", "/d", 2⟩] ∧
      (⟨2, "h2", "r1", "/d", 1⟩ : Row) ∈ removeRenamed 2 1
        [⟨2, "h2", "r1", "/d", 1⟩, ⟨5, "h2", "r2", "/d", 2⟩]) ∧
    ((⟨6, "h3", "m", "/d2", 2⟩ : Row) ∉ removeMoved 2 1
        [⟨3, "h3", "m", "/d1", 1⟩, ⟨6, "h3", "m", "/d2", 2⟩] ∧
      (⟨3, "h3", "m", "/d1", 1⟩ : Row) ∈ removeMoved 2 1
        [⟨3, "h3", "m", "/d1", 1⟩, ⟨6, "h3", "m", "/d2", 2⟩]) :=
  ⟨remove_phase_single_sided.1
      [⟨1, "h1", "u", "/d", 1⟩, ⟨4, "h1", "u", "/d", 2⟩] 1 _ _
      (by decide) (by decide) (by decide) (by decide) (by decide)
      (by decide) (by decide) (by decide),
   remove_phase_single_sided.2.1
      [⟨2, "h2", "r1", "/d", 1⟩, ⟨5, "h2", "r2", "/d", 2⟩] 2 1 _ _
      (by decide) (by decide) (by decide) (by decide) (by decide)
      (by decide) (by decide) (by decide) (by decide),
   remove_phase_single_sided.2.2.1
      [⟨3, "h3", "m", "/d1", 1⟩, ⟨6, "h3", "m", "/d2", 2⟩] 2 1 _ _
      (by decide) (by decide) (by decide) (by decide) (by decide)
      (by decide) (by decide) (by decide) (by decide)⟩

/-- C3: comparing a snapshot against an identical copy of itself (every
previous-snapshot record has a latest-snapshot record with the same hash,
name and path, under a distinct snapshot id) yields an empty renamed list and
an empty moved list; `compare_local` produces no added output at all, and the
only missing output in src/main.rs is the stub returning the empty list — so
zero renamed, moved, added and missing entries. -/
theorem compareLocal_identical_snapshots :
    ∀ (store : List Row) (tl tp : Nat),
      tp < tl →
      (∀ r ∈ store, r.mod_date = tl ∨ r.mod_date = tp) →
      (∃ r ∈ store, r.mod_date = tl) →
      (∃ r ∈ store, r.mod_date = tp) →
      (∀ r ∈ store, r.mod_date = tp →
        ∃ q ∈ store, q.hash = r.hash ∧ q.name = r.name ∧ q.path = r.path ∧
          q.mod_date = tl) →
      compareLocal store = CompareOutcome.ok (compareWith tl tp store) ∧
      (compareWith tl tp store).renamed = [] ∧
      (compareWith tl tp store).moved = [] ∧
      missingFilesMain tl tp = [] := by
  intro store tl tp hlt hall hextl hextp hcopy
  have hrev : revisionMillis store = [tl, tp] := by
    apply sortedDescTwo (revisionMillis_sorted store) (revisionMillis_nodup store)
      ?_ hlt
    intro x
    rw [revisionMillis_mem]
    constructor
    · rintro ⟨r, hr, hx⟩
      rcases hall r hr with h | h
      · exact Or.inl (hx.symm.trans h)
      · exact Or.inr (hx.symm.trans h)
    · rintro (rfl | rfl)
      · exact hextl
      · exact hextp
  have hws_mem : ∀ r, r ∈ loadWorkingTable tl tp store ↔ r ∈ store := by
    intro r
    constructor
    · exact List.mem_of_mem_filter
    · intro hr
      refine List.mem_filter.2 ⟨hr, ?_⟩
      simpa using hall r hr
  have hws1_latest : ∀ r ∈ removeUnchangedFromWorkingTable tp
      (loadWorkingTable tl tp store), r.mod_date = tl := by
    intro r hr
    have hrws : r ∈ loadWorkingTable tl tp store := List.mem_of_mem_filter hr
    have hrst : r ∈ store := (hws_mem r).1 hrws
    rcases hall r hrst with h | h
    · exact h
    · exfalso
      rcases hcopy r hrst h with ⟨q, hq, hqh, hqn, hqp, hqmod⟩
      have hqws : q ∈ loadWorkingTable tl tp store := (hws_mem q).2 hq
      have hdec : r.id ∉
          (unchangedPairs tp (loadWorkingTable tl tp store)).map (fun p => p.1.id) := by
        have h2 := (List.mem_filter.1 hr).2
        simpa using h2
      apply hdec
      refine List.mem_map.2 ⟨(r, q), mem_unchangedPairs.2
        ⟨hrws, hqws, ⟨?_, hqh.symm, hqn.symm, hqp.symm⟩, h⟩, rfl⟩
      rw [h, hqmod]
      exact Nat.ne_of_lt hlt
  have hren : renamedFiles tl tp (removeUnchangedFromWorkingTable tp
      (loadWorkingTable tl tp store)) = [] := by
    rw [renamedFiles]
    apply List.map_eq_nil_iff.2
    rw [renamedPairs]
    apply List.filter_eq_nil_iff.2
    intro p hp
    simp only [decide_eq_true_eq]
    rintro ⟨_, _, hpr⟩
    have hp2 : p.2.mod_date = tl := hws1_latest _ (mem_joinPairs.1 hp).2
    exact Nat.ne_of_lt hlt (hpr.symm.trans hp2)
  have hmov : movedFiles tl tp (removeRenamed tl tp
      (removeUnchangedFromWorkingTable tp (loadWorkingTable tl tp store))) = [] := by
    rw [movedFiles]
    apply List.map_eq_nil_iff.2
    rw [movedPairs]
    apply List.filter_eq_nil_iff.2
    intro p hp
    simp only [decide_eq_true_eq]
    rintro ⟨_, _, hpr⟩
    have hp2ws1 : p.2 ∈ removeUnchangedFromWorkingTable tp
        (loadWorkingTable tl tp store) :=
      List.mem_of_mem_filter (List.mem_of_mem_filter (mem_joinPairs.1 hp).2)
    have hp2 : p.2.mod_date = tl := hws1_latest _ hp2ws1
    exact Nat.ne_of_lt hlt (hpr.symm.trans hp2)
  exact ⟨compareLocal_cons hrev, hren, hmov, rfl⟩

/-- Witness for C3 on a one-file snapshot and its identical copy. -/
theorem compareLocal_identical_snapshots_witness :
    compareLocal [⟨1, "h", "a", "/d", 1⟩, ⟨2, "h", "a", "/d", 2⟩] =
      CompareOutcome.ok (compareWith 2 1
        [⟨1, "h", "a", "/d", 1⟩, ⟨2, "h", "a", "/d", 2⟩]) ∧
    (compareWith 2 1 [⟨1, "h", "a", "/d", 1⟩, ⟨2, "h", "a", "/d", 2⟩]).renamed = [] ∧
    (compareWith 2 1 [⟨1, "h", "a", "/d", 1⟩, ⟨2, "h", "a", "/d", 2⟩]).moved = [] ∧
    missingFilesMain 2 1 = [] :=
  compareLocal_identical_snapshots [⟨1, "h", "a", "/d", 1⟩, ⟨2, "h", "a", "/d", 2⟩]
    2 1 (by decide) (by decide) (by decide) (by decide) (by decide)
